import Mathlib

/-
Verification of the explainable text-decision engine:
  * `utils/text_normalize.py` — test/placeholder classifier (`is_test_like`),
    gibberish scorer (`gibberish_score_v3`), low-quality verdict (`is_low_quality_v3`);
  * `app/decision.py` — `RuleEngine.rule_scores` / `RuleEngine.decide`;
  * `streamlit_app.py` — `upgrade_on_strong_evidence` and the strong-boost recompute block.

Embedding conventions:
  * Python `float` values are modelled as exact rationals (`ℚ`); `round(x, k)` is
    modelled by exact round-half-even at `k` decimal digits (`pyRound`, `round3`, `round2`).
  * Python `str` is a sequence of code points, modelled as `List Char` (via `String.data`).
  * Python's Unicode character classes (`\w`, `str.isalpha`, `str.isalnum`, `str.isspace`)
    are idealized to the ASCII + Latin-1 letter range, which is the full range the
    source's own regexes (`[A-Za-zÀ-ÖØ-öø-ÿ]`) distinguish.
  * Each regular expression of the source is translated to an explicit scanner over
    `List Char` whose doc comment records the regex and the reasoning for the translation.
  * `html.unescape` (a Python standard-library call, not code of this repository) is kept
    as an opaque parameter of `is_test_like`.
-/

namespace Mod

/-! ## Character classes -/

/-- Letters of the source's Latin range `[A-Za-zÀ-ÖØ-öø-ÿ]` (ASCII letters plus the
Latin-1 letters, excluding `×` U+00D7 and `÷` U+00F7). Python's Unicode `str.isalpha`
is idealized to this class. -/
def isLatinLetter (c : Char) : Bool :=
  c.isAlpha || (0xC0 ≤ c.toNat && c.toNat ≤ 0xD6) ||
    (0xD8 ≤ c.toNat && c.toNat ≤ 0xF6) || (0xF8 ≤ c.toNat && c.toNat ≤ 0xFF)

/-- Python `str.isalpha`, idealized to the Latin-1 range (see `isLatinLetter`). -/
def isAlphaPy (c : Char) : Bool := isLatinLetter c

/-- Python `str.isalnum`, idealized: Latin letters plus ASCII digits. -/
def isAlnumPy (c : Char) : Bool := isAlphaPy c || c.isDigit

/-- Python `str.isspace`, idealized to ASCII whitespace. -/
def isSpacePy (c : Char) : Bool :=
  c = ' ' || c = '\t' || c = '\n' || c = '\r' || c = '\x0b' || c = '\x0c'

/-- A character of the regex class `\w` (word character): alphanumeric or underscore. -/
def isWordChar (c : Char) : Bool := isAlnumPy c || c = '_'

/-- The vowel set `_VOWELS` of the source: `aeiouAEIOU` plus `áéíóúÁÉÍÓÚüÜ`. -/
def isVowelPy (c : Char) : Bool := ("aeiouAEIOUáéíóúÁÉÍÓÚüÜ").data.contains c

/-- Consonants of `_CONS_RUN_RE`'s class `[bcdfghjklmnpqrstvwxyz]` (case-insensitive). -/
def isConsPy (c : Char) : Bool := ("bcdfghjklmnpqrstvwxyz").data.contains c.toLower

/-- A sentence terminator of the regex class `[.!?…]`. -/
def isSentEnd (c : Char) : Bool := c = '.' || c = '!' || c = '?' || c = '…'

/-- A character of `_EMOJI_RE`'s two Unicode ranges
`\U0001F300-\U0001FAFF` and `\U00002700-\U000027BF`. -/
def isEmojiPy (c : Char) : Bool :=
  (0x1F300 ≤ c.toNat && c.toNat ≤ 0x1FAFF) || (0x2700 ≤ c.toNat && c.toNat ≤ 0x27BF)

/-! ## Elementary string operations -/

/-- Python `str.lower` / `str.casefold`, idealized to ASCII case mapping. -/
def lowerL (cs : List Char) : List Char := cs.map Char.toLower

/-- Python `str.strip()`: remove leading and trailing whitespace. -/
def stripL (cs : List Char) : List Char :=
  ((cs.dropWhile isSpacePy).reverse.dropWhile isSpacePy).reverse

/-- Substring containment, Python's `needle in hay` on strings. -/
def containsSub (needle : List Char) : List Char → Bool
  | [] => needle.isEmpty
  | c :: rest => needle.isPrefixOf (c :: rest) || containsSub needle rest

/-- `tokensAux p acc cs` accumulates the maximal runs of characters satisfying `p`;
`acc` is the (reversed) run in progress. -/
def tokensAux (p : Char → Bool) : List Char → List Char → List (List Char)
  | acc, [] => if acc.isEmpty then [] else [acc.reverse]
  | acc, c :: cs =>
      if p c then tokensAux p (c :: acc) cs
      else if acc.isEmpty then tokensAux p [] cs
      else acc.reverse :: tokensAux p [] cs

/-- The maximal runs of characters satisfying `p`, in order. With `p = isWordChar`
this is `re.findall(r"\b\w+\b", s)`: the word-boundary anchors around `\w+` make
every match a maximal run of word characters. -/
def tokens (p : Char → Bool) (cs : List Char) : List (List Char) := tokensAux p [] cs

/-- Number of maximal runs of characters satisfying `p` (`inRun` marks being inside a run).
With `p = isSentEnd` this is `len(re.findall(r"[.!?…]+", s))`; with
`p = fun c => !isSpacePy c` it is `len(s.split())`. -/
def countRunsAux (p : Char → Bool) : Bool → ℕ → List Char → ℕ
  | _, n, [] => n
  | inRun, n, c :: cs =>
      if p c then countRunsAux p true (if inRun then n else n + 1) cs
      else countRunsAux p false n cs

/-- Number of maximal runs of characters satisfying `p`. -/
def countRuns (p : Char → Bool) (cs : List Char) : ℕ := countRunsAux p false 0 cs

/-- `len(s.split())`: number of whitespace-separated chunks. -/
def splitWSCount (cs : List Char) : ℕ := countRuns (fun c => !isSpacePy c) cs

/-- Length of the longest run of characters satisfying `p` (`cur` = current run length,
`best` = best so far). -/
def maxRunAux (p : Char → Bool) : ℕ → ℕ → List Char → ℕ
  | _, best, [] => best
  | cur, best, c :: cs =>
      if p c then maxRunAux p (cur + 1) (max best (cur + 1)) cs
      else maxRunAux p 0 best cs

/-- Length of the longest run of characters satisfying `p`. -/
def maxRun (p : Char → Bool) (cs : List Char) : ℕ := maxRunAux p 0 0 cs

/-! ## Scanners for the individual regexes of `text_normalize.py` -/

/-- `_REPEAT_CHAR_RE = (.)\1{3,}`: some character other than `\n` (regex `.` does not
match a newline) occurs at least 4 times consecutively. -/
def hasRepeatChar4 : List Char → Bool
  | a :: b :: c :: d :: rest =>
      (a = b && b = c && c = d && a ≠ '\n') || hasRepeatChar4 (b :: c :: d :: rest)
  | _ => false

/-- `_CONS_RUN_RE = (?i)[bcdfghjklmnpqrstvwxyz]{5,}`: a run of 5 consonants. -/
def consRun5 (cs : List Char) : Bool := 5 ≤ maxRun isConsPy cs

/-- `_LATIN_RUN_RE = [A-Za-zÀ-ÖØ-öø-ÿ]{32,}`: a run of 32 Latin letters. -/
def latinRun32 (cs : List Char) : Bool := 32 ≤ maxRun isLatinLetter cs

/-- The literal alternatives of the seven `_ROW_SMASH_RES` patterns. Each pattern is an
alternation of literal fragments (a `(?:word){1,}` group matches iff the literal `word`
occurs at least once, i.e. iff it occurs as a substring), so the whole family matches
iff one of these literals is a substring (case-insensitively). -/
def rowSmashLits : List (List Char) :=
  (["asdfghjkl", "asdfg", "sdfgh", "dfghj", "fghjk", "ghjkl",
    "qwertyuiop", "qwert", "werty", "ertyui", "rtyuio", "tyuiop",
    "zxcvbnm", "zxcvb", "xcvbn", "cvbnm",
    "lkjhg", "kjhgf", "jhgf",
    "ytrewq", "ytrew", "trewq",
    "poiuyt", "poiuy", "oiuyt",
    "mnbvcxz", "mnbvc", "nbvcx", "bvcxz"]).map String.data

/-- `any(r.search(s) for r in _ROW_SMASH_RES)` (all patterns carry `re.I`). -/
def rowSmash (cs : List Char) : Bool :=
  rowSmashLits.any (fun lit => containsSub lit (lowerL cs))

/-- One position of `_URL_RE = https?://|www\.` (`re.I`) matches here (input
already lowercased). -/
def urlMatchHere (cs : List Char) : Bool :=
  ("https://").data.isPrefixOf cs || ("http://").data.isPrefixOf cs ||
    ("www.").data.isPrefixOf cs

/-- Number of positions where `_URL_RE` matches. The three alternatives cannot overlap
each other (no occurrence of one literal can start strictly inside another match),
so this equals the number of non-overlapping matches `re.finditer` yields. -/
def urlCountL : List Char → ℕ
  | [] => 0
  | c :: rest => (if urlMatchHere (c :: rest) then 1 else 0) + urlCountL rest

/-- `sum(1 for _ in _URL_RE.finditer(s))` (case-insensitive). -/
def urlCount (cs : List Char) : ℕ := urlCountL (lowerL cs)

/-- The class `[A-Z0-9._%+-]` of `_EMAIL_RE`'s local part (with `re.I`). -/
def isEmailC1 (c : Char) : Bool :=
  c.isAlpha || c.isDigit || c = '.' || c = '_' || c = '%' || c = '+' || c = '-'

/-- The class `[A-Z0-9.-]` of `_EMAIL_RE`'s domain part (with `re.I`). -/
def isEmailC2 (c : Char) : Bool := c.isAlpha || c.isDigit || c = '.' || c = '-'

/-- Two ASCII letters follow (head of `[A-Z]{2,}` with `re.I`). -/
def twoAlpha : List Char → Bool
  | a :: b :: _ => a.isAlpha && b.isAlpha
  | _ => false

/-- Scanner for the part of `_EMAIL_RE` after `@`: some split `[A-Z0-9.-]+ \. [A-Z]{2,}`
exists. `seen` records whether at least one domain character was consumed. At a `.` the
scanner may either close the domain (if nonempty, two letters must follow) or treat the
dot as a domain character and continue — exactly the choices backtracking explores. -/
def emailTail : Bool → List Char → Bool
  | _, [] => false
  | seen, c :: rest =>
      (c = '.' && seen && twoAlpha rest) || (isEmailC2 c && emailTail true rest)

/-- Scanner for `_EMAIL_RE.search`: an `@` preceded by a local-part character
(a nonempty `[A-Z0-9._%+-]+` run ends right before the `@` iff the previous character
is in the class), followed by a domain accepted by `emailTail`. -/
def emailSearchAux : Bool → List Char → Bool
  | _, [] => false
  | prevC1, c :: rest =>
      (c = '@' && prevC1 && emailTail false rest) || emailSearchAux (isEmailC1 c) rest

/-- `_EMAIL_RE.search(s)` as a Boolean. -/
def emailSearch (cs : List Char) : Bool := emailSearchAux false cs

/-- The previous character (if any) is not a word character, i.e. a `\b` word boundary
lies here, given that the next character is a word character. -/
def prevNonWord : Option Char → Bool
  | none => true
  | some c => !(isWordChar c)

/-- The next character (if any) is not a word character, i.e. a `\b` word boundary lies
here, given that the previous character is a word character. -/
def afterNonWord : List Char → Bool
  | [] => true
  | c :: _ => !(isWordChar c)

/-- Scanner for `_REPEAT_WORDRE = (\b\w+\b)(?:\s+\1){1,}` with `re.IGNORECASE`.
A match of the group `(\b\w+\b)` is exactly a full maximal word run (the two anchors
force it to start and end at word boundaries). `search` succeeds iff some such token is
followed by whitespace (`\s+` must consume all of it, because the backreference starts
with a word character) and then by the same token text again, case-insensitively (the
backreference needs no closing boundary, so a prefix occurrence suffices). -/
def repeatWordAux : Option Char → List Char → Bool
  | _, [] => false
  | prev, c :: rest =>
      (isWordChar c && prevNonWord prev &&
        (let w := (c :: rest).takeWhile isWordChar
         let after := (c :: rest).dropWhile isWordChar
         let sp := after.takeWhile isSpacePy
         let rest2 := after.dropWhile isSpacePy
         !sp.isEmpty && (lowerL w).isPrefixOf (lowerL rest2)))
      || repeatWordAux (some c) rest

/-- `_REPEAT_WORDRE.search(s)` as a Boolean. -/
def repeatWordSearch (cs : List Char) : Bool := repeatWordAux none cs

/-- Word-boundary search `\bLIT\b` for a literal `lit` that starts and ends with a word
character (true of every literal this file uses it for): `lit` occurs at a position whose
preceding character (if any) is not a word character and whose following character
(if any) is not a word character. -/
def wbSearchAux (lit : List Char) : Option Char → List Char → Bool
  | prev, [] => prevNonWord prev && lit.isEmpty
  | prev, c :: rest =>
      (prevNonWord prev && lit.isPrefixOf (c :: rest) &&
        afterNonWord ((c :: rest).drop lit.length))
      || wbSearchAux lit (some c) rest

/-- `re.search` of `\bLIT\b` as a Boolean. -/
def wbSearch (lit : List Char) (cs : List Char) : Bool := wbSearchAux lit none cs

/-! ## Python rounding

Python's `round(x, k)` rounds to `k` decimal digits with ties to even. Modelled exactly
over `ℚ`. -/

/-- Round a rational to the nearest integer, ties to even (Python `round`). -/
def pyRound (q : ℚ) : ℤ :=
  if q - ⌊q⌋ < 1/2 then ⌊q⌋
  else if 1/2 < q - ⌊q⌋ then ⌊q⌋ + 1
  else if ⌊q⌋ % 2 = 0 then ⌊q⌋ else ⌊q⌋ + 1

/-- Python `round(x, 3)`. -/
def round3 (q : ℚ) : ℚ := (pyRound (q * 1000) : ℚ) / 1000

/-- Python `round(x, 2)`. -/
def round2 (q : ℚ) : ℚ := (pyRound (q * 100) : ℚ) / 100

/-! ## Structural signal extractors (`text_normalize.py`) -/

/-- `_vowel_ratio`: vowels over `max(1, letters)` of the stripped string. -/
def vowel_ratio (cs : List Char) : ℚ :=
  let t := stripL cs
  if t.isEmpty then 0
  else (t.countP isVowelPy : ℚ) / (max 1 (t.countP isAlphaPy) : ℕ)

/-- `_ratio_emoji`: emoji characters over total length of the stripped string. -/
def ratio_emoji (cs : List Char) : ℚ :=
  let t := stripL cs
  if t.isEmpty then 0
  else (t.countP isEmojiPy : ℚ) / (t.length : ℚ)

/-- `_ratio_symbols`: `(total - alphanumeric - whitespace) / max(1, total)` of the
stripped string. -/
def ratio_symbols (cs : List Char) : ℚ :=
  let t := stripL cs
  if t.isEmpty then 0
  else ((t.length - t.countP isAlnumPy - t.countP isSpacePy : ℕ) : ℚ) /
    ((max 1 t.length : ℕ) : ℚ)

/-- `_ratio_url_like`: URL-pattern matches over `max(1, len(s.split()))` of the
stripped string. -/
def ratio_url_like (cs : List Char) : ℚ :=
  let t := stripL cs
  if t.isEmpty then 0
  else (urlCount t : ℚ) / ((max 1 (splitWSCount t) : ℕ) : ℚ)

/-- `_token_has_vowel`. -/
def tokenHasVowel (w : List Char) : Bool := w.any isVowelPy

/-! ## Trigram entropy

`_char_trigram_entropy(s)` lowercases and strips `s`, returns the sentinel `99.0` when
fewer than 10 characters remain, and otherwise returns the base-2 Shannon entropy
`-Σ (n/total) * log2(n/total + 1e-12)` over the multiset of overlapping 3-character
substrings (`n` ranges over the multiplicities, `total` is their sum).
The only use is the comparison `entropy < 2.3`; that comparison is decided exactly over
`ℚ` by `char_trigram_entropy_lt23` below, and `char_trigram_entropy_lt23_iff` proves it
equivalent to the real-valued comparison. -/

/-- The overlapping 3-character substrings `[s[i:i+3] for i in range(len(s)-2)]`. -/
def trigrams : List Char → List (List Char)
  | a :: b :: c :: rest => [a, b, c] :: trigrams (b :: c :: rest)
  | _ => []

/-- The multiplicities of the distinct trigrams (`Counter(trigrams).values()`). -/
def trigramCounts (cs : List Char) : List ℕ :=
  let ts := trigrams cs
  ts.dedup.map (fun t => ts.count t)

/-- The additive constant `1e-12` of the entropy formula. -/
def entropyEps : ℚ := 1 / 1000000000000

/-- `Π (n/T + 1e-12)^n` over the multiplicities: the entropy comparison reduces to a
polynomial inequality in this product. -/
def entropyProdQ (ns : List ℕ) (T : ℕ) : ℚ :=
  (ns.map (fun (n : ℕ) => ((n : ℚ) / (T : ℚ) + entropyEps) ^ n)).prod

/-- Decides `_char_trigram_entropy(s) < 2.3` exactly. For `T = Σ n`,
`-Σ (n/T)·log₂(n/T + 1e-12) < 23/10` iff `Σ n·log₂(n/T + 1e-12) > -23T/10` iff
`Π (n/T + 1e-12)^n > 2^(-23T/10)` iff `(Π (n/T + 1e-12)^n)^10 · 2^(23T) > 1`,
which is a rational comparison. The sentinel `99.0` (fewer than 10 characters, or no
trigrams) is never `< 2.3`. Equivalence with the real-valued entropy is proved in
`char_trigram_entropy_lt23_iff`. -/
def char_trigram_entropy_lt23 (cs : List Char) : Bool :=
  let t := lowerL (stripL cs)
  if t.length < 10 then false
  else
    let ns := trigramCounts t
    if ns.isEmpty then false
    else decide (1 < entropyProdQ ns ns.sum ^ 10 * 2 ^ (23 * ns.sum))

/-- `_char_trigram_entropy` itself, as a real number (used only to certify
`char_trigram_entropy_lt23`). -/
noncomputable def char_trigram_entropy (cs : List Char) : ℝ :=
  let t := lowerL (stripL cs)
  if t.length < 10 then 99
  else
    let ns := trigramCounts t
    if ns.isEmpty then 99
    else
      -((ns.map (fun (n : ℕ) =>
          ((n : ℝ) / (ns.sum : ℝ)) *
            Real.logb 2 ((n : ℝ) / (ns.sum : ℝ) + ((1 : ℝ) / 1000000000000)))).sum)

/-! ## Gibberish scorer (`gibberish_score_v3`) and low-quality verdict -/

/-- `MIN_WORDS_KEEP`. -/
def MIN_WORDS_KEEP : ℤ := 2

/-- `MAX_WORDS_CUT`. -/
def MAX_WORDS_CUT : ℤ := 10000

/-- `GIB_THR`. -/
def GIB_THR : ℤ := 3

/-- `EMOJI_THR = 0.30`. -/
def EMOJI_THR : ℚ := 3/10

/-- `SYMBOL_THR = 0.60`. -/
def SYMBOL_THR : ℚ := 3/5

/-- `len(set(w.lower() for w in words)) / len(words)` (callers guarantee
`words` nonempty). -/
def unique_ratio (words : List (List Char)) : ℚ :=
  ((words.map lowerL).dedup.length : ℚ) / (words.length : ℚ)

/-- `gibberish_score_v3` over a character list. Follows the source line by line:
thirteen independent structural signals, twelve worth one point and one worth two,
then `max(0, score)`. The guards `not s.strip()` and `not words` return 0. -/
def gibberishScoreL (cs : List Char) : ℤ :=
  if (stripL cs).isEmpty then 0
  else
    let words := tokens isWordChar cs
    if words.isEmpty then 0
    else
      let total := cs.length
      let spaces := cs.countP isSpacePy
      let alnum := cs.countP isAlnumPy
      let space_ratio : ℚ := if total = 0 then 0 else (spaces : ℚ) / (total : ℚ)
      let alnum_ratio : ℚ := if total = 0 then 0 else (alnum : ℚ) / (total : ℚ)
      let sent_end_count := countRuns isSentEnd cs
      let letters_only := cs.countP isLatinLetter
      let latin_tokens := words.filter (fun w => !w.isEmpty && w.all isLatinLetter)
      let score : ℤ :=
        (if unique_ratio words < 7/20 then 1 else 0)
        + (if repeatWordSearch cs then 1 else 0)
        + (if hasRepeatChar4 cs then 1 else 0)
        + (if vowel_ratio cs < 1/4 || consRun5 cs then 1 else 0)
        + (if char_trigram_entropy_lt23 cs then 1 else 0)
        + (if latinRun32 cs then 1 else 0)
        + (if rowSmash cs then 1 else 0)
        + (if EMOJI_THR < ratio_emoji cs then 1 else 0)
        + (if SYMBOL_THR < ratio_symbols cs then 1 else 0)
        + (if (2/5 : ℚ) < ratio_url_like cs || (emailSearch cs && words.length < 12)
            then 1 else 0)
        + (if 60 ≤ letters_only ∧ (space_ratio < 1/50 ∨ sent_end_count ≤ 1)
            then 2 else 0)
        + (if space_ratio < 1/50 ∧ (4/5 : ℚ) < alnum_ratio then 1 else 0)
        + (if latin_tokens.any (fun w => 20 < w.length && !tokenHasVowel w)
            then 1 else 0)
      max 0 score

/-- `gibberish_score_v3(s)`. -/
def gibberish_score_v3 (s : String) : ℤ := gibberishScoreL s.data

/-- `is_low_quality_v3`. The source reads `s = row["_text_raw"]` and
`wc = int(row["_len_words"])` from a loosely-typed row; the two fields are taken
directly as arguments. -/
def is_low_quality_v3 (s : String) (wc : ℤ) : Bool :=
  if wc < MIN_WORDS_KEEP then true
  else if MAX_WORDS_CUT < wc then true
  else if 40 ≤ wc ∧ (7/20 : ℚ) ≤ vowel_ratio s.data ∧ 2 ≤ countRuns isSentEnd s.data
    then false
  else GIB_THR ≤ gibberish_score_v3 s

/-! ## Test/placeholder classifier (`is_test_like`) -/

/-- `EXCEPTIONS = [r"\btest drive\b", r"\bunittest\b", r"\bab test\b"]`. -/
def EXCEPTIONS : List (List Char) :=
  (["test drive", "unittest", "ab test"]).map String.data

/-- `HARD_PATTERNS` as word-boundary literals. The last pattern `\btest(?:ing)?\b`
matches at some position iff the literal `testing` or the literal `test` matches there
with word boundaries on both sides, so it is expanded into those two literals. -/
def HARD_PATTERNS : List (List Char) :=
  (["this is a test", "dummy data", "lorem ipsum", "foobar", "testing", "test"]).map
    String.data

/-- `SOFT_TOKENS = [r"\basdf\b", r"\bqwer\b", r"\bzxcv\b", r"\bsample\b", r"\bplaceholder\b"]`. -/
def SOFT_TOKENS : List (List Char) :=
  (["asdf", "qwer", "zxcv", "sample", "placeholder"]).map String.data

/-- The context words of `NEAR_TEST_CONTEXT`. -/
def CTX_WORDS : List (List Char) :=
  (["review", "example", "dummy", "sample", "placeholder"]).map String.data

/-- Scanner for `NEAR_TEST_CONTEXT = \btest(?:\W+\w+){0,3}\W+(review|...)\b` on the
token list. Every `\w+` in the pattern is flanked by `\W+`/boundaries, so a match
consumes whole tokens: a token exactly `test`, then 0–3 intervening tokens, then a token
exactly equal to a context word — i.e. a context word 1 to 4 tokens after a `test`. -/
def nearFwdScan : List (List Char) → Bool
  | [] => false
  | w :: rest =>
      (w = ("test").data && (rest.take 4).any (fun t => CTX_WORDS.contains t))
      || nearFwdScan rest

/-- Scanner for `NEAR_TEST_CONTEXT_REV`: a token `test` 1 to 4 tokens after a context
word (same reasoning as `nearFwdScan`). -/
def nearRevScan : List (List Char) → Bool
  | [] => false
  | w :: rest =>
      (CTX_WORDS.contains w && (rest.take 4).any (fun t => t = ("test").data))
      || nearRevScan rest

/-- The boilerplate phrases of the long-template rule. -/
def BOILERPLATE : List (List Char) :=
  (["describe your", "keep your", "we value", "no personal info"]).map String.data

/-- Body of `is_test_like` on the normalized text `t = html.unescape(s).casefold().strip()`:
the length gate, the exception veto (`if any(exc): if not any(hard): return False`),
the hard-pattern layer, the proximity layer, the soft-token accumulation and the
boilerplate-length rule, in source order. -/
def isTestLikeCore (t : List Char) : Bool :=
  if t.length < 5 then false
  else if EXCEPTIONS.any (fun p => wbSearch p t) &&
      !(HARD_PATTERNS.any (fun p => wbSearch p t)) then false
  else if HARD_PATTERNS.any (fun p => wbSearch p t) then true
  else if nearFwdScan (tokens isWordChar t) || nearRevScan (tokens isWordChar t)
    then true
  else if 2 ≤ (SOFT_TOKENS.map (fun p => if wbSearch p t then 1 else 0)).sum then true
  else if 40 < splitWSCount t && containsSub (("review").data) t &&
      BOILERPLATE.any (fun p => containsSub p t) then true
  else false

/-- `is_test_like(s)`. `html.unescape` is Python standard-library code, not code of this
repository; it is passed in as an opaque pure function `unescape`. -/
def is_test_like (unescape : String → String) (s : String) : Bool :=
  isTestLikeCore (stripL (lowerL (unescape s).data))

/-! ## Rule Engine (`app/decision.py`)

A rule's compiled regex is kept abstract: the `pattern` field is an arbitrary matcher
`String → List String` standing for `[m.group(0) for m in pattern.finditer(text)]`
(`None` when the rule has no pattern). All theorems therefore hold for every possible
pattern. Config loading (`yaml`) is out of scope; a `Rule` carries the loaded fields. -/

/-- A configured rule (one entry of `rules.yml` after `__init__` compiled its pattern). -/
structure Rule where
  rid : ℤ
  reason_id : ℤ
  weight : ℚ
  keywords : List String
  pattern : Option (String → List String)
  enabled : Bool

/-- `REASON_LABELS.get(reason_id, str(reason_id))`. -/
def reasonLabel (reason_id : ℤ) : String :=
  if reason_id = 2 then "Off-topic / Irrelevant"
  else if reason_id = 8 then "Promotion / Advertising"
  else toString reason_id

/-- `RuleEngine._match_keywords`: keywords whose lowercasing is a substring of the
lowercased text, in configuration order. -/
def match_keywords (text : String) (kws : List String) : List String :=
  kws.filter (fun kw => containsSub (lowerL kw.data) (lowerL text.data))

/-- `RuleEngine._match_pattern`: all pattern matches, `[]` when there is no pattern. -/
def match_pattern (pattern : Option (String → List String)) (text : String) :
    List String :=
  match pattern with
  | none => []
  | some f => f text

/-- One per-rule hit record of `rule_scores` (a `RuleHit`). -/
structure RuleHit where
  rid : ℤ
  reason_id : ℤ
  reason_label : String
  weight : ℚ
  score : ℚ
  keyword_hits : List String
  regex_hits : List String
  explanation : String

/-- `RuleEngine._build_expl`. -/
def build_expl (reason_id : ℤ) (kw_hits rgx_hits : List String) : String :=
  let label := reasonLabel reason_id
  let parts : List String :=
    (if !kw_hits.isEmpty
      then [("關鍵片語：") ++ String.intercalate (", ") (kw_hits.take 3)] else [])
    ++ (if !rgx_hits.isEmpty then [("命中正則：URL/電話/Email/促銷用語")] else [])
  if parts.isEmpty then label ++ ("（未命中證據）")
  else label ++ ("（") ++ String.intercalate ("；") parts ++ ("）")

/-- `RuleEngine.rule_scores`: disabled rules are skipped; a rule hits iff it has a
keyword hit or a pattern hit; its score is its weight if it hits, else `0.0`; the stored
score is `round(score, 3)` and the hit lists are capped to 5. -/
def rule_scores (rules : List Rule) (text : String) : List RuleHit :=
  (rules.filter (fun r => r.enabled)).map (fun r =>
    let kw_hits := match_keywords text r.keywords
    let rgx_hits := match_pattern r.pattern text
    let hit : Bool := !kw_hits.isEmpty || !rgx_hits.isEmpty
    let score : ℚ := if hit then r.weight else 0
    { rid := r.rid
      reason_id := r.reason_id
      reason_label := reasonLabel r.reason_id
      weight := r.weight
      score := round3 score
      keyword_hits := kw_hits.take 5
      regex_hits := rgx_hits.take 5
      explanation := build_expl r.reason_id kw_hits rgx_hits })

/-- The aggregate rule score of `decide` (lines 79–80): sum of the per-rule scores,
capped at `1.0`. -/
def aggRuleScore (rules : List Rule) (text : String) : ℚ :=
  min (((rule_scores rules text).map (fun h => h.score)).sum) 1

/-- One entry of `likely_reasons`. -/
structure ReasonSummary where
  reason_id : ℤ
  reason_label : String
  score : ℚ

/-- The summary dict built for `likely_reasons`. -/
def toSummary (h : RuleHit) : ReasonSummary :=
  { reason_id := h.reason_id, reason_label := h.reason_label, score := h.score }

/-- Insertion step of a stable descending sort by score: `x` goes before the first
element whose score is not greater than `x`'s. -/
def insertScoreDesc (x : ReasonSummary) : List ReasonSummary → List ReasonSummary
  | [] => [x]
  | y :: ys => if x.score < y.score then y :: insertScoreDesc x ys else x :: y :: ys

/-- `list.sort(key=lambda x: x["score"], reverse=True)`: Python's sort is stable, and
`reverse=True` reverses the comparison, not the list, so equal scores keep their
original order. Insertion sort with `insertScoreDesc` has exactly this behaviour. -/
def sortScoreDesc (l : List ReasonSummary) : List ReasonSummary :=
  l.foldr insertScoreDesc []

/-- The `DecisionResult` dict returned by `RuleEngine.decide`. -/
structure DecisionResult where
  alpha : ℚ
  beta : ℚ
  neighbor_conf : ℚ
  rule_score : ℚ
  final_score : ℚ
  risk_level : String
  rules_detail : List RuleHit
  likely_reasons : List ReasonSummary

/-- `RuleEngine.decide(text, neighbor_conf)`. `alpha` is the engine's blend weight fixed
at construction (`self.alpha`); the returned numeric fields are rounded exactly as the
source rounds them. -/
def RuleEngine.decide (rules : List Rule) (alpha : ℚ) (text : String)
    (neighbor_conf : ℚ) : DecisionResult :=
  let per_rule := rule_scores rules text
  let rule_score := aggRuleScore rules text
  let final_score := alpha * rule_score + (1 - alpha) * neighbor_conf
  let risk : String :=
    if (7/10 : ℚ) ≤ final_score then "HIGH"
    else if (2/5 : ℚ) ≤ final_score then "MEDIUM"
    else "LOW"
  let likely :=
    sortScoreDesc ((per_rule.filter (fun h => 0 < h.score)).map toSummary)
  { alpha := round2 alpha
    beta := round2 (1 - alpha)
    neighbor_conf := round3 neighbor_conf
    rule_score := round3 rule_score
    final_score := round3 final_score
    risk_level := risk
    rules_detail := per_rule
    likely_reasons := likely.take 3 }

/-! ## Strong-evidence re-scoring (`streamlit_app.py`) -/

/-- `upgrade_on_strong_evidence`: any hit with a nonempty `regex_hits` list and score
below `1.0` is promoted to `1.0`; returns the updated list and whether anything changed
(the source mutates the dicts in place and returns the flag). -/
def upgrade_on_strong_evidence (per_rule : List RuleHit) : List RuleHit × Bool :=
  (per_rule.map (fun h =>
      if !h.regex_hits.isEmpty ∧ h.score < 1 then { h with score := 1 } else h),
   per_rule.any (fun h => !h.regex_hits.isEmpty && decide (h.score < 1)))

/-- The `strong_boost` recompute block (`streamlit_app.py` lines 134–140): if the
upgrade changed anything, the aggregate rule score is recomputed from the updated
details, re-capped at `1.0`, and the final score is recomputed with the engine's
`alpha` and `beta = 1 - alpha` and the raw `neighbor_conf`. -/
def strongBoostRecompute (res : DecisionResult) (alpha neighbor_conf : ℚ) :
    DecisionResult :=
  let upd := upgrade_on_strong_evidence res.rules_detail
  if upd.2 then
    let rule_score := min ((upd.1.map (fun h => h.score)).sum) 1
    let final_score := alpha * rule_score + (1 - alpha) * neighbor_conf
    { res with
        rules_detail := upd.1
        rule_score := round3 rule_score
        final_score := round3 final_score }
  else
    { res with rules_detail := upd.1 }

/-! ## Spec-side model of `likely_reasons` (for the refinement claim C8)

The spec words the selection as: hits with score > 0, sorted descending by score, ties
broken by original rule order, truncated to top 3. Modelled by indexing the summaries
with their rule position and sorting by the total lexicographic order
(score descending, index ascending). -/

/-- Strict lexicographic precedence: higher score first, original position first on
ties. -/
def lexBefore (a b : ℕ × ReasonSummary) : Prop :=
  b.2.score < a.2.score ∨ (b.2.score = a.2.score ∧ a.1 < b.1)

instance (a b : ℕ × ReasonSummary) : Decidable (lexBefore a b) := by
  unfold lexBefore; infer_instance

/-- Insertion step of the sort by `lexBefore`. -/
def insertLex (x : ℕ × ReasonSummary) : List (ℕ × ReasonSummary) →
    List (ℕ × ReasonSummary)
  | [] => [x]
  | y :: ys => if lexBefore y x then y :: insertLex x ys else x :: y :: ys

/-- Sort by `lexBefore` (insertion sort). -/
def sortLex (l : List (ℕ × ReasonSummary)) : List (ℕ × ReasonSummary) :=
  l.foldr insertLex []

/-- Modelled from the spec: `likely_reasons` = hits with score > 0, sorted descending
by score with ties broken by original rule order, truncated to top 3. -/
def likely_reasons_spec (per_rule : List RuleHit) : List ReasonSummary :=
  (((sortLex (((per_rule.map toSummary).enum).filter
      (fun p => decide (0 < p.2.score)))).map Prod.snd).take 3)

/-! ## Concrete fixtures for individual claim checks -/

/-- A one-rule configuration (promotion rule, weight 0.3, keyword hit). -/
def demoRules1 : List Rule :=
  [{ rid := 1, reason_id := 8, weight := 3/10, keywords := [("promo")],
     pattern := none, enabled := true }]

/-- A one-rule configuration (off-topic rule, weight 0.5, keyword hit). -/
def demoRules2 : List Rule :=
  [{ rid := 1, reason_id := 2, weight := 1/2, keywords := [("spam")],
     pattern := none, enabled := true }]

/-- A one-rule configuration whose pattern matcher always reports one match
(strong evidence present, weight 0.3). -/
def demoRules3 : List Rule :=
  [{ rid := 1, reason_id := 8, weight := 3/10, keywords := [],
     pattern := some (fun _ => [("http://x")]), enabled := true }]

/-- A one-rule configuration whose weight `0.1234` needs more than 3 decimal digits. -/
def demoRules7 : List Rule :=
  [{ rid := 1, reason_id := 2, weight := 1234/10000, keywords := [("a")],
     pattern := none, enabled := true }]

/-- The decision on the empty configuration with `alpha = 0.6` and
`neighbor_conf = 0.001` (fixture for the C1 counterexample). -/
def demoRes1 : DecisionResult := RuleEngine.decide [] (3/5) ("x") (1/1000)

/-! # Theorems -/

/-! ## Rounding lemmas -/

theorem pyRound_ge_floor (q : ℚ) : ⌊q⌋ ≤ pyRound q := by
  unfold pyRound; split_ifs <;> omega

theorem pyRound_le_floor_add_one (q : ℚ) : pyRound q ≤ ⌊q⌋ + 1 := by
  unfold pyRound; split_ifs <;> omega

theorem pyRound_mono {q r : ℚ} (h : q ≤ r) : pyRound q ≤ pyRound r := by
  have hf : ⌊q⌋ ≤ ⌊r⌋ := Int.floor_le_floor h
  rcases eq_or_lt_of_le hf with heq | hlt
  · unfold pyRound
    rw [← heq]
    split_ifs <;> first | omega | linarith
  · have h1 := pyRound_le_floor_add_one q
    have h2 := pyRound_ge_floor r
    omega

theorem round3_mono {q r : ℚ} (h : q ≤ r) : round3 q ≤ round3 r := by
  unfold round3
  have h1 : pyRound (q * 1000) ≤ pyRound (r * 1000) := pyRound_mono (by linarith)
  have h2 : ((pyRound (q * 1000) : ℤ) : ℚ) ≤ ((pyRound (r * 1000) : ℤ) : ℚ) := by
    exact_mod_cast h1
  linarith

unseal Rat.add Rat.sub Rat.mul Rat.inv in
theorem round3_zero : round3 0 = 0 := by decide

unseal Rat.add Rat.sub Rat.mul Rat.inv in
theorem round3_one : round3 1 = 1 := by decide

theorem round3_nonneg {q : ℚ} (h : 0 ≤ q) : 0 ≤ round3 q := by
  have := round3_mono h
  rwa [round3_zero] at this

theorem round3_le_one {q : ℚ} (h : q ≤ 1) : round3 q ≤ 1 := by
  have := round3_mono h
  rwa [round3_one] at this

/-! ## Claims about the gibberish scorer and the low-quality verdict -/

theorem ite_le_pos {c : Prop} [Decidable c] {k : ℤ} (hk : 0 ≤ k) :
    (if c then k else 0) ≤ k := by
  split <;> omega

/-- C10: `gibberish_score_v3` always returns an integer between 0 and 14: twelve
signals contribute at most one point each and one contributes at most two, and the
empty/no-word guards return 0. -/
theorem gibberish_score_v3_bounds (s : String) :
    0 ≤ gibberish_score_v3 s ∧ gibberish_score_v3 s ≤ 14 := by
  unfold gibberish_score_v3 gibberishScoreL
  by_cases h1 : (stripL s.data).isEmpty = true
  · simp only [if_pos h1]; norm_num
  · simp only [if_neg h1]
    by_cases h2 : (tokens isWordChar s.data).isEmpty = true
    · simp only [if_pos h2]; norm_num
    · simp only [if_neg h2]
      refine ⟨le_max_left 0 _, max_le (by norm_num) ?_⟩
      refine le_trans ?_
        (by norm_num : (1+1+1+1+1+1+1+1+1+1+2+1+1 : ℤ) ≤ 14)
      exact add_le_add (add_le_add (add_le_add (add_le_add (add_le_add (add_le_add
        (add_le_add (add_le_add (add_le_add (add_le_add (add_le_add (add_le_add
          (ite_le_pos (by norm_num)) (ite_le_pos (by norm_num)))
          (ite_le_pos (by norm_num))) (ite_le_pos (by norm_num)))
          (ite_le_pos (by norm_num))) (ite_le_pos (by norm_num)))
          (ite_le_pos (by norm_num))) (ite_le_pos (by norm_num)))
          (ite_le_pos (by norm_num))) (ite_le_pos (by norm_num)))
          (ite_le_pos (by norm_num))) (ite_le_pos (by norm_num)))
          (ite_le_pos (by norm_num))

/-- C9: a string with no word-character token (no match of `\b\w+\b`) always gets
gibberish score 0, even when it is nonempty and all symbols, because of the
`if not words: return 0` guard. -/
theorem gibberish_score_v3_no_words (s : String)
    (h : tokens isWordChar s.data = []) : gibberish_score_v3 s = 0 := by
  unfold gibberish_score_v3 gibberishScoreL
  by_cases h1 : (stripL s.data).isEmpty = true
  · simp [h1]
  · simp [h1, h]

/-- Witness for C9 at the symbol-only input `"!!! ??"`: it has no word token and its
gibberish score is 0. -/
theorem gibberish_score_v3_no_words_witness :
    tokens isWordChar ("!!! ??").data = [] ∧ gibberish_score_v3 "!!! ??" = 0 :=
  ⟨by decide, gibberish_score_v3_no_words ("!!! ??") (by decide)⟩

/-- C4: `is_low_quality_v3` is true exactly when the word count is below 2 or above
10000, or the gibberish score reaches the threshold 3 and the long-text protection
(word count at least 40, vowel ratio at least 0.35, at least two sentence terminators)
does not apply. -/
theorem is_low_quality_v3_iff (s : String) (wc : ℤ) :
    is_low_quality_v3 s wc = true ↔
      (wc < MIN_WORDS_KEEP ∨ MAX_WORDS_CUT < wc ∨
        (GIB_THR ≤ gibberish_score_v3 s ∧
          ¬(40 ≤ wc ∧ (7/20 : ℚ) ≤ vowel_ratio s.data ∧
            2 ≤ countRuns isSentEnd s.data))) := by
  unfold is_low_quality_v3
  split_ifs with h1 h2 h3 <;>
    simp_all [MIN_WORDS_KEEP, MAX_WORDS_CUT, GIB_THR]
  omega

set_option maxRecDepth 8000 in
set_option exponentiation.threshold 400 in
unseal Rat.add Rat.sub Rat.mul Rat.inv in
/-- Counterexample to C6 as stated: on `"asdfasdfasdfasdf"` the gibberish score does
not reach the threshold 3 (only the trigram-entropy signal and the
low-whitespace/high-alphanumeric signal fire, giving 2). -/
theorem claim6_counterexample :
    ¬(GIB_THR ≤ gibberish_score_v3 "asdfasdfasdfasdf" ∧
      is_low_quality_v3 "asdfasdfasdfasdf" 1 = true) := by decide

set_option maxRecDepth 8000 in
set_option exponentiation.threshold 400 in
unseal Rat.add Rat.sub Rat.mul Rat.inv in
/-- C6 (amended): `gibberish_score_v3("asdfasdfasdfasdf")` is exactly 2 (below the
threshold 3), and `is_low_quality_v3` on it with word count 1 is still true via the
word-count floor. -/
theorem claim6_amended :
    gibberish_score_v3 "asdfasdfasdfasdf" = 2 ∧
    is_low_quality_v3 "asdfasdfasdfasdf" 1 = true := by decide

/-! ## Claims about the Rule Engine -/

theorem rule_scores_score_nonneg {rules : List Rule} {text : String}
    (hw : ∀ r ∈ rules, 0 ≤ r.weight) :
    ∀ h ∈ rule_scores rules text, 0 ≤ h.score := by
  intro h hm
  unfold rule_scores at hm
  obtain ⟨r, hr, rfl⟩ := List.mem_map.mp hm
  have hr' : r ∈ rules := (List.mem_filter.mp hr).1
  dsimp only
  apply round3_nonneg
  split
  · exact hw r hr'
  · exact le_refl 0

theorem rule_scores_score_le_one {rules : List Rule} {text : String}
    (hw : ∀ r ∈ rules, r.weight ≤ 1) :
    ∀ h ∈ rule_scores rules text, h.score ≤ 1 := by
  intro h hm
  unfold rule_scores at hm
  obtain ⟨r, hr, rfl⟩ := List.mem_map.mp hm
  have hr' : r ∈ rules := (List.mem_filter.mp hr).1
  dsimp only
  apply round3_le_one
  split
  · exact hw r hr'
  · norm_num

theorem aggRuleScore_nonneg {rules : List Rule} {text : String}
    (hw : ∀ r ∈ rules, 0 ≤ r.weight) : 0 ≤ aggRuleScore rules text := by
  unfold aggRuleScore
  apply le_min _ (by norm_num)
  apply List.sum_nonneg
  intro x hx
  obtain ⟨h, hh, rfl⟩ := List.mem_map.mp hx
  exact rule_scores_score_nonneg hw h hh

theorem aggRuleScore_le_one (rules : List Rule) (text : String) :
    aggRuleScore rules text ≤ 1 :=
  min_le_right _ _

/-- C2: for non-negative rule weights the aggregate rule score of `decide` — the sum
of the per-rule scores capped at 1.0 — lies in [0, 1], both before and after the
output rounding. -/
theorem decide_rule_score_bounds (rules : List Rule) (alpha : ℚ) (text : String)
    (neighbor_conf : ℚ) (hw : ∀ r ∈ rules, 0 ≤ r.weight) :
    0 ≤ aggRuleScore rules text ∧ aggRuleScore rules text ≤ 1 ∧
    0 ≤ (RuleEngine.decide rules alpha text neighbor_conf).rule_score ∧
    (RuleEngine.decide rules alpha text neighbor_conf).rule_score ≤ 1 := by
  refine ⟨aggRuleScore_nonneg hw, aggRuleScore_le_one rules text, ?_, ?_⟩
  · exact round3_nonneg (aggRuleScore_nonneg hw)
  · exact round3_le_one (aggRuleScore_le_one rules text)

unseal Rat.add Rat.sub Rat.mul Rat.inv in
/-- Witness for C2 on the one-rule fixture `demoRules2` and the text `"spam alert"`. -/
theorem decide_rule_score_bounds_witness :
    (∀ r ∈ demoRules2, 0 ≤ r.weight) ∧
    (0 ≤ aggRuleScore demoRules2 ("spam alert") ∧
      aggRuleScore demoRules2 ("spam alert") ≤ 1 ∧
      0 ≤ (RuleEngine.decide demoRules2 (3/5) ("spam alert") (1/2)).rule_score ∧
      (RuleEngine.decide demoRules2 (3/5) ("spam alert") (1/2)).rule_score ≤ 1) :=
  ⟨by decide,
    decide_rule_score_bounds demoRules2 (3/5) ("spam alert") (1/2) (by decide)⟩

unseal Rat.add Rat.sub Rat.mul Rat.inv in
/-- Counterexample to C1 as stated: on the empty rule list with `alpha = 0.6` and
`neighbor_conf = 0.001` the returned `final_score` is `round(0.0004, 3) = 0.0`, which
differs from `alpha * rule_score + (1 - alpha) * neighbor_conf = 0.0004` over the
returned fields, because `decide` rounds its outputs to 3 decimal digits. -/
theorem claim1_counterexample :
    ¬(demoRes1.final_score =
        demoRes1.alpha * demoRes1.rule_score +
          (1 - demoRes1.alpha) * demoRes1.neighbor_conf ∧
      0 ≤ demoRes1.final_score ∧ demoRes1.final_score ≤ 1) := by decide

/-- C1 (amended): the returned `final_score` is the 3-decimal rounding of
`alpha * rule_score + (1 - alpha) * neighbor_conf` (with `rule_score` the capped
aggregate before output rounding), and, for `alpha` and `neighbor_conf` in [0, 1] and
non-negative weights, it lies in [0, 1]. -/
theorem decide_final_score_blend (rules : List Rule) (alpha : ℚ) (text : String)
    (neighbor_conf : ℚ)
    (hα : 0 ≤ alpha ∧ alpha ≤ 1) (hnc : 0 ≤ neighbor_conf ∧ neighbor_conf ≤ 1)
    (hw : ∀ r ∈ rules, 0 ≤ r.weight) :
    (RuleEngine.decide rules alpha text neighbor_conf).final_score =
      round3 (alpha * aggRuleScore rules text + (1 - alpha) * neighbor_conf) ∧
    0 ≤ (RuleEngine.decide rules alpha text neighbor_conf).final_score ∧
    (RuleEngine.decide rules alpha text neighbor_conf).final_score ≤ 1 := by
  refine ⟨rfl, ?_, ?_⟩
  · apply round3_nonneg
    have h1 : 0 ≤ alpha * aggRuleScore rules text :=
      mul_nonneg hα.1 (aggRuleScore_nonneg hw)
    have h2 : 0 ≤ (1 - alpha) * neighbor_conf :=
      mul_nonneg (by linarith [hα.2]) hnc.1
    linarith
  · apply round3_le_one
    have h1 : alpha * aggRuleScore rules text ≤ alpha * 1 :=
      mul_le_mul_of_nonneg_left (aggRuleScore_le_one rules text) hα.1
    have h2 : (1 - alpha) * neighbor_conf ≤ (1 - alpha) * 1 :=
      mul_le_mul_of_nonneg_left hnc.2 (by linarith [hα.2])
    linarith

unseal Rat.add Rat.sub Rat.mul Rat.inv in
/-- Witness for C1 (amended) on the fixture `demoRules1`. -/
theorem decide_final_score_blend_witness :
    ((0:ℚ) ≤ 3/5 ∧ (3/5:ℚ) ≤ 1) ∧ ((0:ℚ) ≤ 1/2 ∧ (1/2:ℚ) ≤ 1) ∧
    (∀ r ∈ demoRules1, 0 ≤ r.weight) ∧
    ((RuleEngine.decide demoRules1 (3/5) ("promo now") (1/2)).final_score =
      round3 ((3/5) * aggRuleScore demoRules1 ("promo now") + (1 - 3/5) * (1/2)) ∧
    0 ≤ (RuleEngine.decide demoRules1 (3/5) ("promo now") (1/2)).final_score ∧
    (RuleEngine.decide demoRules1 (3/5) ("promo now") (1/2)).final_score ≤ 1) :=
  ⟨by decide, by decide, by decide,
    decide_final_score_blend demoRules1 (3/5) ("promo now") (1/2)
      (by decide) (by decide) (by decide)⟩

unseal Rat.add Rat.sub Rat.mul Rat.inv in
/-- Counterexample to C7 as stated: the rule of `demoRules7` has weight `0.1234` and a
keyword hit on the text `"a"`, yet the stored score is `round(0.1234, 3) = 0.123`,
which is neither the configured weight nor 0. -/
theorem claim7_counterexample :
    ((rule_scores demoRules7 ("a")).map (fun h => h.keyword_hits)) = [[("a")]] ∧
    ((rule_scores demoRules7 ("a")).map (fun h => h.score)) = [123/1000] ∧
    ¬((123/1000 : ℚ) = 1234/10000 ∨ (123/1000 : ℚ) = 0) := by decide

/-- C7 (amended): every `RuleHit` produced by `rule_scores` has score equal to the
3-decimal rounding of its weight when it has at least one keyword or pattern hit, and
score 0 otherwise; no other value appears before the strong-evidence pass. -/
theorem rule_scores_score_eq (rules : List Rule) (text : String) :
    ∀ h ∈ rule_scores rules text,
      h.score = if h.keyword_hits ≠ [] ∨ h.regex_hits ≠ []
        then round3 h.weight else 0 := by
  intro h hm
  unfold rule_scores at hm
  obtain ⟨r, _, rfl⟩ := List.mem_map.mp hm
  dsimp only
  by_cases hkw : match_keywords text r.keywords = [] <;>
    by_cases hrg : match_pattern r.pattern text = [] <;>
    simp [hkw, hrg, List.isEmpty_iff, List.take_eq_nil_iff, round3_zero]

unseal Rat.add Rat.sub Rat.mul Rat.inv in
/-- Witness for C7 (amended): the first hit of `rule_scores demoRules7 "a"` satisfies
the amended score equation. -/
theorem rule_scores_score_eq_witness :
    ((rule_scores demoRules7 ("a")).get ⟨0, by decide⟩).score =
      if ((rule_scores demoRules7 ("a")).get ⟨0, by decide⟩).keyword_hits ≠ [] ∨
          ((rule_scores demoRules7 ("a")).get ⟨0, by decide⟩).regex_hits ≠ []
        then round3 (((rule_scores demoRules7 ("a")).get ⟨0, by decide⟩).weight)
        else 0 :=
  rule_scores_score_eq demoRules7 ("a") _ (List.get_mem _ 0 (by decide))

/-! ## Claim about the strong-evidence re-scoring pass -/

theorem upgrade_fst (l : List RuleHit) :
    (upgrade_on_strong_evidence l).1 =
      l.map (fun h =>
        if !h.regex_hits.isEmpty ∧ h.score < 1 then { h with score := 1 } else h) :=
  rfl

theorem upgrade_fst_of_not_changed {l : List RuleHit}
    (h : (upgrade_on_strong_evidence l).2 = false) :
    (upgrade_on_strong_evidence l).1 = l := by
  rw [upgrade_fst]
  have hall := List.any_eq_false.mp h
  have : ∀ x ∈ l,
      (if !x.regex_hits.isEmpty ∧ x.score < 1 then { x with score := 1 } else x) =
        id x := by
    intro x hx
    have hc := hall x hx
    simp only [Bool.and_eq_true, decide_eq_true_eq, not_and] at hc
    rw [if_neg]
    · rfl
    · rintro ⟨hb, hs⟩
      exact absurd hs (by simpa using hc hb)
  rw [List.map_congr_left this, List.map_id]

theorem strongBoost_rules_detail (res : DecisionResult) (a nc : ℚ) :
    (strongBoostRecompute res a nc).rules_detail =
      (upgrade_on_strong_evidence res.rules_detail).1 := by
  unfold strongBoostRecompute
  dsimp only
  split <;> rfl

theorem strongBoost_fields_changed {res : DecisionResult} {a nc : ℚ}
    (h : (upgrade_on_strong_evidence res.rules_detail).2 = true) :
    (strongBoostRecompute res a nc).rule_score =
      round3 (min ((((upgrade_on_strong_evidence res.rules_detail).1).map
        (fun x => x.score)).sum) 1) ∧
    (strongBoostRecompute res a nc).final_score =
      round3 (a * min ((((upgrade_on_strong_evidence res.rules_detail).1).map
        (fun x => x.score)).sum) 1 + (1 - a) * nc) := by
  unfold strongBoostRecompute
  rw [if_pos h]
  exact ⟨rfl, rfl⟩

theorem strongBoost_fields_unchanged {res : DecisionResult} {a nc : ℚ}
    (h : (upgrade_on_strong_evidence res.rules_detail).2 = false) :
    (strongBoostRecompute res a nc).rule_score = res.rule_score ∧
    (strongBoostRecompute res a nc).final_score = res.final_score := by
  unfold strongBoostRecompute
  rw [if_neg (by simp [h])]
  exact ⟨rfl, rfl⟩

theorem upgrade_score_pointwise (h : RuleHit) :
    h.score ≤ ((fun h =>
      if !h.regex_hits.isEmpty ∧ h.score < 1 then { h with score := 1 } else h) h).score := by
  dsimp only
  split
  · rename_i hc
    exact le_of_lt hc.2
  · exact le_refl _

/-- C3: after the strong-evidence pass on a `decide` result (weights at most 1,
non-negative `alpha`): every hit with a nonempty `regex_hits` list has score exactly
1.0; the aggregate rule score and the final score equal the recomputation from the
updated details, re-capped at 1.0, with the same `alpha` and `beta = 1 - alpha`; and
the final score never decreases. -/
theorem strong_boost_rescoring (rules : List Rule) (alpha : ℚ) (text : String)
    (neighbor_conf : ℚ) (hα : 0 ≤ alpha) (hw : ∀ r ∈ rules, r.weight ≤ 1) :
    (∀ h ∈ (strongBoostRecompute (RuleEngine.decide rules alpha text neighbor_conf)
        alpha neighbor_conf).rules_detail, h.regex_hits ≠ [] → h.score = 1) ∧
    (strongBoostRecompute (RuleEngine.decide rules alpha text neighbor_conf)
        alpha neighbor_conf).rule_score =
      round3 (min (((strongBoostRecompute (RuleEngine.decide rules alpha text
        neighbor_conf) alpha neighbor_conf).rules_detail.map
          (fun h => h.score)).sum) 1) ∧
    (strongBoostRecompute (RuleEngine.decide rules alpha text neighbor_conf)
        alpha neighbor_conf).final_score =
      round3 (alpha * min (((strongBoostRecompute (RuleEngine.decide rules alpha text
        neighbor_conf) alpha neighbor_conf).rules_detail.map
          (fun h => h.score)).sum) 1 + (1 - alpha) * neighbor_conf) ∧
    (RuleEngine.decide rules alpha text neighbor_conf).final_score ≤
      (strongBoostRecompute (RuleEngine.decide rules alpha text neighbor_conf)
        alpha neighbor_conf).final_score := by
  have hdetail : (RuleEngine.decide rules alpha text neighbor_conf).rules_detail =
      rule_scores rules text := rfl
  have hrs : (RuleEngine.decide rules alpha text neighbor_conf).rule_score =
      round3 (aggRuleScore rules text) := rfl
  have hfs : (RuleEngine.decide rules alpha text neighbor_conf).final_score =
      round3 (alpha * aggRuleScore rules text + (1 - alpha) * neighbor_conf) := rfl
  refine ⟨?_, ?_⟩
  · -- every regex-hit has score 1 after the pass
    intro h hm hrg
    rw [strongBoost_rules_detail, hdetail, upgrade_fst] at hm
    obtain ⟨h0, hh0, rfl⟩ := List.mem_map.mp hm
    by_cases hc : (!h0.regex_hits.isEmpty) = true ∧ h0.score < 1
    · rw [if_pos hc]
    · rw [if_neg hc] at hrg ⊢
      have hb : (!h0.regex_hits.isEmpty) = true := by
        simpa [List.isEmpty_iff] using hrg
      have h1 : ¬h0.score < 1 := fun hlt => hc ⟨hb, hlt⟩
      have h2 : h0.score ≤ 1 := rule_scores_score_le_one hw h0 hh0
      linarith
  rw [strongBoost_rules_detail, hdetail]
  by_cases hch : (upgrade_on_strong_evidence (rule_scores rules text)).2 = true
  · have hf := @strongBoost_fields_changed
      (RuleEngine.decide rules alpha text neighbor_conf)
      alpha neighbor_conf (by rw [hdetail]; exact hch)
    rw [hdetail] at hf
    refine ⟨hf.1, hf.2, ?_⟩
    -- monotonicity of the recomputed final score
    rw [hfs, hf.2]
    apply round3_mono
    have hsum : ((rule_scores rules text).map (fun h => h.score)).sum ≤
        (((upgrade_on_strong_evidence (rule_scores rules text)).1).map
          (fun h => h.score)).sum := by
      rw [upgrade_fst, List.map_map]
      exact List.sum_le_sum (fun h _ => upgrade_score_pointwise h)
    have hmin : aggRuleScore rules text ≤
        min ((((upgrade_on_strong_evidence (rule_scores rules text)).1).map
          (fun h => h.score)).sum) 1 :=
      min_le_min hsum (le_refl 1)
    have := mul_le_mul_of_nonneg_left hmin hα
    linarith
  · have hch' : (upgrade_on_strong_evidence (rule_scores rules text)).2 = false := by
      simpa using hch
    have hf := @strongBoost_fields_unchanged
      (RuleEngine.decide rules alpha text neighbor_conf)
      alpha neighbor_conf (by rw [hdetail]; exact hch')
    have hid : (upgrade_on_strong_evidence (rule_scores rules text)).1 =
        rule_scores rules text := upgrade_fst_of_not_changed hch'
    rw [hid]
    refine ⟨?_, ?_, ?_⟩
    · rw [hf.1, hrs]; rfl
    · rw [hf.2, hfs]; rfl
    · rw [hf.2]

unseal Rat.add Rat.sub Rat.mul Rat.inv in
/-- Witness for C3 on `demoRules3` (a pattern rule with weight 0.3 whose matcher always
fires), `alpha = 0.6`, `neighbor_conf = 0.5`. -/
theorem strong_boost_rescoring_witness :
    (0 ≤ (3/5 : ℚ)) ∧ (∀ r ∈ demoRules3, r.weight ≤ 1) ∧
    ((∀ h ∈ (strongBoostRecompute (RuleEngine.decide demoRules3 (3/5) ("ok") (1/2))
        (3/5) (1/2)).rules_detail, h.regex_hits ≠ [] → h.score = 1) ∧
    (strongBoostRecompute (RuleEngine.decide demoRules3 (3/5) ("ok") (1/2))
        (3/5) (1/2)).rule_score =
      round3 (min (((strongBoostRecompute (RuleEngine.decide demoRules3 (3/5) ("ok")
        (1/2)) (3/5) (1/2)).rules_detail.map (fun h => h.score)).sum) 1) ∧
    (strongBoostRecompute (RuleEngine.decide demoRules3 (3/5) ("ok") (1/2))
        (3/5) (1/2)).final_score =
      round3 ((3/5) * min (((strongBoostRecompute (RuleEngine.decide demoRules3 (3/5)
        ("ok") (1/2)) (3/5) (1/2)).rules_detail.map (fun h => h.score)).sum) 1
        + (1 - 3/5) * (1/2)) ∧
    (RuleEngine.decide demoRules3 (3/5) ("ok") (1/2)).final_score ≤
      (strongBoostRecompute (RuleEngine.decide demoRules3 (3/5) ("ok") (1/2))
        (3/5) (1/2)).final_score) :=
  ⟨by norm_num, by decide,
    strong_boost_rescoring demoRules3 (3/5) ("ok") (1/2) (by norm_num) (by decide)⟩

/-! ## Claim about `likely_reasons` (stable sort refinement) -/

theorem insertScoreDesc_mem {x y : ReasonSummary} {l : List ReasonSummary} :
    y ∈ insertScoreDesc x l ↔ y = x ∨ y ∈ l := by
  induction l with
  | nil => simp [insertScoreDesc]
  | cons z zs ih =>
      unfold insertScoreDesc
      split <;> simp [ih]
      tauto

theorem sortScoreDesc_mem {y : ReasonSummary} {l : List ReasonSummary} :
    y ∈ sortScoreDesc l ↔ y ∈ l := by
  induction l with
  | nil => simp [sortScoreDesc]
  | cons z zs ih =>
      rw [show sortScoreDesc (z :: zs) = insertScoreDesc z (sortScoreDesc zs) from rfl,
        insertScoreDesc_mem]
      simp [ih]

theorem insertScoreDesc_pairwise {x : ReasonSummary} {l : List ReasonSummary}
    (h : l.Pairwise (fun a b => b.score ≤ a.score)) :
    (insertScoreDesc x l).Pairwise (fun a b => b.score ≤ a.score) := by
  induction l with
  | nil => simp [insertScoreDesc]
  | cons z zs ih =>
      rcases List.pairwise_cons.mp h with ⟨hz, hzs⟩
      unfold insertScoreDesc
      split
      · rename_i hlt
        refine List.pairwise_cons.mpr ⟨?_, ih hzs⟩
        intro y hy
        rcases insertScoreDesc_mem.mp hy with rfl | hy'
        · exact le_of_lt hlt
        · exact hz y hy'
      · rename_i hnlt
        refine List.pairwise_cons.mpr ⟨?_, h⟩
        intro y hy
        rcases List.mem_cons.mp hy with rfl | hy'
        · exact not_lt.mp hnlt
        · exact le_trans (hz y hy') (not_lt.mp hnlt)

theorem sortScoreDesc_pairwise (l : List ReasonSummary) :
    (sortScoreDesc l).Pairwise (fun a b => b.score ≤ a.score) := by
  induction l with
  | nil => simp [sortScoreDesc]
  | cons z zs ih => exact insertScoreDesc_pairwise ih

theorem insertLex_mem {x y : ℕ × ReasonSummary} {m : List (ℕ × ReasonSummary)} :
    y ∈ insertLex x m ↔ y = x ∨ y ∈ m := by
  induction m with
  | nil => simp [insertLex]
  | cons z zs ih =>
      unfold insertLex
      split <;> simp [ih]
      tauto

theorem sortLex_mem {y : ℕ × ReasonSummary} {l : List (ℕ × ReasonSummary)} :
    y ∈ sortLex l ↔ y ∈ l := by
  induction l with
  | nil => simp [sortLex]
  | cons z zs ih =>
      rw [show sortLex (z :: zs) = insertLex z (sortLex zs) from rfl, insertLex_mem]
      simp [ih]

/-- On a list whose indices all exceed `x`'s, the lexicographic insertion behaves like
the score-only insertion: the index tie-break never prefers a later element. This is
exactly the stability of Python's sort. -/
theorem map_snd_insertLex {x : ℕ × ReasonSummary} {m : List (ℕ × ReasonSummary)}
    (hidx : ∀ y ∈ m, x.1 < y.1) :
    (insertLex x m).map Prod.snd = insertScoreDesc x.2 (m.map Prod.snd) := by
  induction m with
  | nil => rfl
  | cons z zs ih =>
      have hz := hidx z (List.mem_cons_self z zs)
      rw [show insertLex x (z :: zs) =
        if lexBefore z x then z :: insertLex x zs else x :: z :: zs from rfl]
      rw [show (z :: zs).map Prod.snd = z.2 :: zs.map Prod.snd from rfl]
      rw [show insertScoreDesc x.2 (z.2 :: zs.map Prod.snd) =
        if x.2.score < z.2.score then z.2 :: insertScoreDesc x.2 (zs.map Prod.snd)
        else x.2 :: z.2 :: zs.map Prod.snd from rfl]
      have hlex : lexBefore z x ↔ x.2.score < z.2.score := by
        unfold lexBefore
        constructor
        · rintro (h | ⟨_, hidx'⟩)
          · exact h
          · omega
        · exact Or.inl
      by_cases hlt : x.2.score < z.2.score
      · rw [if_pos (hlex.mpr hlt), if_pos hlt, List.map_cons,
          ih (fun y hy => hidx y (List.mem_cons_of_mem z hy))]
      · rw [if_neg (fun hc => hlt (hlex.mp hc)), if_neg hlt]
        rfl

theorem map_snd_sortLex {l : List (ℕ × ReasonSummary)}
    (h : l.Pairwise (fun a b => a.1 < b.1)) :
    (sortLex l).map Prod.snd = sortScoreDesc (l.map Prod.snd) := by
  induction l with
  | nil => rfl
  | cons x xs ih =>
      rcases List.pairwise_cons.mp h with ⟨hx, hxs⟩
      rw [show sortLex (x :: xs) = insertLex x (sortLex xs) from rfl]
      rw [map_snd_insertLex (fun y hy => hx y (sortLex_mem.mp hy)), ih hxs]
      rfl

theorem pairwise_fst_lt_enumFrom {α : Type} (n : ℕ) (l : List α) :
    (List.enumFrom n l).Pairwise (fun a b => a.1 < b.1) := by
  induction l generalizing n with
  | nil => constructor
  | cons x xs ih =>
      rw [show List.enumFrom n (x :: xs) = (n, x) :: List.enumFrom (n + 1) xs from rfl]
      refine List.pairwise_cons.mpr ⟨?_, ih (n + 1)⟩
      rintro ⟨i, a⟩ hy
      have := (List.mem_enumFrom hy).1
      simpa using by omega

theorem map_snd_filter_enumFrom {α : Type} (p : α → Bool) (n : ℕ) (l : List α) :
    ((List.enumFrom n l).filter (fun q => p q.2)).map Prod.snd = l.filter p := by
  induction l generalizing n with
  | nil => rfl
  | cons x xs ih =>
      rw [show List.enumFrom n (x :: xs) = (n, x) :: List.enumFrom (n + 1) xs from rfl]
      by_cases hx : p x = true
      · simp only [List.filter_cons, hx]
        simp [ih]
      · simp only [List.filter_cons, hx]
        simp [ih, hx]

/-- The spec-side pipeline coincides with the source's filter/stable-sort pipeline. -/
theorem likely_reasons_spec_eq (per_rule : List RuleHit) :
    likely_reasons_spec per_rule =
      (sortScoreDesc ((per_rule.filter
        (fun h => decide (0 < h.score))).map toSummary)).take 3 := by
  unfold likely_reasons_spec
  rw [show (per_rule.map toSummary).enum =
    List.enumFrom 0 (per_rule.map toSummary) from rfl]
  rw [map_snd_sortLex ((pairwise_fst_lt_enumFrom 0 _).filter _)]
  rw [map_snd_filter_enumFrom (fun s => decide (0 < s.score)) 0 (per_rule.map toSummary)]
  rw [List.filter_map]
  rfl

/-- C8: `likely_reasons` equals the spec's description — the hits with positive score,
sorted descending by score with ties broken by original rule order, truncated to the
top 3 — and in particular has length at most 3, is sorted descending by score, and
contains only entries with positive score. -/
theorem decide_likely_reasons (rules : List Rule) (alpha : ℚ) (text : String)
    (neighbor_conf : ℚ) :
    (RuleEngine.decide rules alpha text neighbor_conf).likely_reasons =
      likely_reasons_spec
        (RuleEngine.decide rules alpha text neighbor_conf).rules_detail ∧
    (RuleEngine.decide rules alpha text neighbor_conf).likely_reasons.length ≤ 3 ∧
    (RuleEngine.decide rules alpha text neighbor_conf).likely_reasons.Pairwise
      (fun a b => b.score ≤ a.score) ∧
    ∀ x ∈ (RuleEngine.decide rules alpha text neighbor_conf).likely_reasons,
      0 < x.score := by
  have hlr : (RuleEngine.decide rules alpha text neighbor_conf).likely_reasons =
      (sortScoreDesc (((rule_scores rules text).filter
        (fun h => decide (0 < h.score))).map toSummary)).take 3 := rfl
  refine ⟨?_, ?_, ?_, ?_⟩
  · rw [hlr, likely_reasons_spec_eq]
    rfl
  · rw [hlr]
    exact List.length_take_le 3 _
  · rw [hlr]
    exact List.Pairwise.sublist (List.take_sublist 3 _) (sortScoreDesc_pairwise _)
  · intro x hx
    rw [hlr] at hx
    have hx' := sortScoreDesc_mem.mp (List.mem_of_mem_take hx)
    obtain ⟨h, hh, rfl⟩ := List.mem_map.mp hx'
    have := (List.mem_filter.mp hh).2
    exact of_decide_eq_true this

/-! ## Claim about the test/placeholder classifier -/

/-- C5: whenever the normalized text has length at least 5, matches some exception
pattern and matches no hard pattern, `is_test_like` returns false — the exception
layer vetoes regardless of the proximity, soft-token and boilerplate layers. -/
theorem is_test_like_exception_veto (unescape : String → String) (s : String)
    (h5 : 5 ≤ (stripL (lowerL (unescape s).data)).length)
    (hexc : EXCEPTIONS.any
      (fun p => wbSearch p (stripL (lowerL (unescape s).data))) = true)
    (hhard : HARD_PATTERNS.any
      (fun p => wbSearch p (stripL (lowerL (unescape s).data))) = false) :
    is_test_like unescape s = false := by
  unfold is_test_like isTestLikeCore
  rw [if_neg (by omega), hexc, hhard]
  simp

/-- Witness for C5: `"i used unittest here"` matches the exception `\bunittest\b`,
matches no hard pattern, and is classified as not test-like. -/
theorem is_test_like_exception_veto_witness :
    5 ≤ (stripL (lowerL (id ("i used unittest here")).data)).length ∧
    EXCEPTIONS.any (fun p =>
      wbSearch p (stripL (lowerL (id ("i used unittest here")).data))) = true ∧
    HARD_PATTERNS.any (fun p =>
      wbSearch p (stripL (lowerL (id ("i used unittest here")).data))) = false ∧
    is_test_like id ("i used unittest here") = false :=
  ⟨by decide, by decide, by decide,
    is_test_like_exception_veto id ("i used unittest here")
      (by decide) (by decide) (by decide)⟩

/-! ## Certification of the decidable entropy test -/

theorem logb_list_prod_pow (l : List ℕ) (f : ℕ → ℝ) (hf : ∀ n ∈ l, 0 < f n) :
    Real.logb 2 ((l.map (fun (n : ℕ) => f n ^ n)).prod) =
      (l.map (fun (n : ℕ) => (n : ℝ) * Real.logb 2 (f n))).sum := by
  induction l with
  | nil => simp
  | cons a as ih =>
      have ha := hf a (List.mem_cons_self a as)
      have has : ∀ n ∈ as, 0 < f n := fun n hn => hf n (List.mem_cons_of_mem a hn)
      have hprod : 0 < ((as.map (fun (n : ℕ) => f n ^ n)).prod) := by
        apply List.prod_pos
        intro x hx
        obtain ⟨n, hn, rfl⟩ := List.mem_map.mp hx
        exact pow_pos (has n hn) n
      simp only [List.map_cons, List.prod_cons, List.sum_cons]
      rw [Real.logb_mul (ne_of_gt (pow_pos ha a)) (ne_of_gt hprod),
        Real.logb_pow, ih has]

/-- The algebraic heart of the entropy test: for positive total `T = Σ n`,
`-Σ (n/T)·log₂(n/T + 1e-12) < 23/10` holds exactly when the rational number
`(Π (n/T + 1e-12)^n)^10 · 2^(23T)` exceeds 1. -/
theorem entropy_sum_lt_iff (ns : List ℕ) (hT : 0 < ns.sum) :
    -((ns.map (fun (n : ℕ) => ((n : ℝ) / (ns.sum : ℝ)) *
        Real.logb 2 ((n : ℝ) / (ns.sum : ℝ) + (1 / 1000000000000 : ℝ)))).sum) <
      23/10 ↔
    1 < entropyProdQ ns ns.sum ^ 10 * 2 ^ (23 * ns.sum) := by
  have hT' : (0 : ℝ) < (ns.sum : ℝ) := by exact_mod_cast hT
  have hf : ∀ n : ℕ, 0 < (n : ℝ) / (ns.sum : ℝ) + (1 / 1000000000000 : ℝ) := by
    intro n; positivity
  have hP : 0 < ((ns.map (fun (n : ℕ) =>
      ((n : ℝ) / (ns.sum : ℝ) + (1 / 1000000000000 : ℝ)) ^ n)).prod) := by
    apply List.prod_pos
    intro x hx
    obtain ⟨n, hn, rfl⟩ := List.mem_map.mp hx
    exact pow_pos (hf n) n
  have h1 : (-((ns.map (fun (n : ℕ) => ((n : ℝ) / (ns.sum : ℝ)) *
        Real.logb 2 ((n : ℝ) / (ns.sum : ℝ) + (1 / 1000000000000 : ℝ)))).sum) <
      23/10) ↔
      (-(23/10 : ℝ) * (ns.sum : ℝ) <
        ((ns.map (fun (n : ℕ) => ((n : ℝ) / (ns.sum : ℝ)) *
          Real.logb 2 ((n : ℝ) / (ns.sum : ℝ) + (1 / 1000000000000 : ℝ)))).sum) *
          (ns.sum : ℝ)) := by
    rw [neg_lt]
    exact (mul_lt_mul_right hT').symm
  have h2 : ((ns.map (fun (n : ℕ) => ((n : ℝ) / (ns.sum : ℝ)) *
        Real.logb 2 ((n : ℝ) / (ns.sum : ℝ) + (1 / 1000000000000 : ℝ)))).sum) *
        (ns.sum : ℝ) =
      (ns.map (fun (n : ℕ) => (n : ℝ) *
        Real.logb 2 ((n : ℝ) / (ns.sum : ℝ) + (1 / 1000000000000 : ℝ)))).sum := by
    rw [mul_comm, ← List.sum_map_mul_left]
    congr 1
    apply List.map_congr_left
    intro n _
    rw [← mul_assoc, mul_comm ((ns.sum : ℝ)) ((n : ℝ) / (ns.sum : ℝ)),
      div_mul_cancel₀ _ (ne_of_gt hT')]
  have h3 : (ns.map (fun (n : ℕ) => (n : ℝ) *
        Real.logb 2 ((n : ℝ) / (ns.sum : ℝ) + (1 / 1000000000000 : ℝ)))).sum =
      Real.logb 2 ((ns.map (fun (n : ℕ) =>
        ((n : ℝ) / (ns.sum : ℝ) + (1 / 1000000000000 : ℝ)) ^ n)).prod) :=
    (logb_list_prod_pow ns _ (fun n _ => hf n)).symm
  have h4 : (-(23/10 : ℝ) * (ns.sum : ℝ) <
      Real.logb 2 ((ns.map (fun (n : ℕ) =>
        ((n : ℝ) / (ns.sum : ℝ) + (1 / 1000000000000 : ℝ)) ^ n)).prod)) ↔
      ((2 : ℝ) ^ (-(23/10 : ℝ) * (ns.sum : ℝ)) <
        (ns.map (fun (n : ℕ) =>
          ((n : ℝ) / (ns.sum : ℝ) + (1 / 1000000000000 : ℝ)) ^ n)).prod) :=
    Real.lt_logb_iff_rpow_lt one_lt_two hP
  have h5 : ((2 : ℝ) ^ (-(23/10 : ℝ) * (ns.sum : ℝ)) <
      (ns.map (fun (n : ℕ) =>
        ((n : ℝ) / (ns.sum : ℝ) + (1 / 1000000000000 : ℝ)) ^ n)).prod) ↔
      (1 < ((ns.map (fun (n : ℕ) =>
        ((n : ℝ) / (ns.sum : ℝ) + (1 / 1000000000000 : ℝ)) ^ n)).prod) ^ (10 : ℕ) *
        2 ^ (23 * ns.sum)) := by
    rw [← pow_lt_pow_iff_left₀ (Real.rpow_nonneg (by norm_num) _) (le_of_lt hP)
      (by norm_num : (10:ℕ) ≠ 0)]
    have e1 : ((2 : ℝ) ^ (-(23/10 : ℝ) * (ns.sum : ℝ))) ^ (10 : ℕ) =
        ((2 : ℝ) ^ (23 * ns.sum : ℕ))⁻¹ := by
      rw [← Real.rpow_natCast ((2 : ℝ) ^ (-(23/10 : ℝ) * (ns.sum : ℝ))) 10,
        ← Real.rpow_mul (by norm_num : (0:ℝ) ≤ 2)]
      have : (-(23/10 : ℝ) * (ns.sum : ℝ)) * ((10 : ℕ) : ℝ) =
          -((23 * ns.sum : ℕ) : ℝ) := by push_cast; ring
      rw [this, Real.rpow_neg (by norm_num : (0:ℝ) ≤ 2), Real.rpow_natCast]
    rw [e1, inv_eq_one_div, div_lt_iff₀ (by positivity)]
  have hcast : ∀ l : List ℚ, ((l.prod : ℚ) : ℝ) =
      (l.map (fun (q : ℚ) => (q : ℝ))).prod := by
    intro l
    induction l with
    | nil => simp
    | cons a as ih => simp [ih]
  have h6 : ((entropyProdQ ns ns.sum : ℚ) : ℝ) =
      ((ns.map (fun (n : ℕ) =>
        ((n : ℝ) / (ns.sum : ℝ) + (1 / 1000000000000 : ℝ)) ^ n)).prod) := by
    unfold entropyProdQ
    rw [hcast, List.map_map]
    congr 1
    apply List.map_congr_left
    intro n _
    simp only [Function.comp_apply, entropyEps, Rat.cast_pow, Rat.cast_add,
      Rat.cast_div, Rat.cast_natCast, Rat.cast_one, Rat.cast_ofNat]
  rw [h1, h2, h3, h4, h5, ← h6]
  constructor
  · intro h
    exact_mod_cast h
  · intro h
    exact_mod_cast h

theorem trigramCounts_pos (t : List Char) : ∀ n ∈ trigramCounts t, 0 < n := by
  intro n hn
  unfold trigramCounts at hn
  obtain ⟨x, hx, rfl⟩ := List.mem_map.mp hn
  exact List.count_pos_iff.mpr (List.mem_dedup.mp hx)

/-- The decidable entropy test agrees with the real-valued entropy of the source:
`char_trigram_entropy_lt23 cs` is true exactly when `char_trigram_entropy cs < 2.3`
(the sentinel branches compare `99.0 < 2.3`, which is false). -/
theorem char_trigram_entropy_lt23_iff (cs : List Char) :
    char_trigram_entropy_lt23 cs = true ↔ char_trigram_entropy cs < 23/10 := by
  unfold char_trigram_entropy_lt23 char_trigram_entropy
  by_cases h1 : (lowerL (stripL cs)).length < 10
  · simp only [if_pos h1]
    norm_num
  · simp only [if_neg h1]
    by_cases h2 : (trigramCounts (lowerL (stripL cs))).isEmpty = true
    · simp only [if_pos h2]
      norm_num
    · simp only [if_neg h2]
      have hne : trigramCounts (lowerL (stripL cs)) ≠ [] := by
        simpa [List.isEmpty_iff] using h2
      have hT : 0 < (trigramCounts (lowerL (stripL cs))).sum :=
        List.sum_pos _ (trigramCounts_pos _) hne
      simp only [decide_eq_true_eq]
      exact (entropy_sum_lt_iff _ hT).symm

end Mod
